import Mathlib

/-!
Shallow embedding of the `mock_dai` ink! contract (`src/lib.rs`).

The contract state is the `MockDai` storage struct: a fixed `total_supply`,
a `balances : Mapping<AccountId, Balance>` and an
`allowances : Mapping<(AccountId, AccountId), Balance>`.  `AccountId` is an
opaque 32-byte identifier, modelled here as `Nat`; `Balance` is `u128`,
modelled as `Nat` with an explicit `% 2 ^ 128` at the single unguarded
addition (`to_balance + amount` in `transfer_from_to`); the two
subtractions in the source are each guarded by a preceding comparison, so
plain `Nat` subtraction agrees with `u128` subtraction there.

`ink::storage::Mapping` offers `get : key -> Option value` (the contract
wraps every read in `unwrap_or_default`, i.e. `Option.getD _ 0`) and
`insert : key -> value -> unit` which overwrites any existing entry.  It is
modelled as an association list with overwrite-on-insert (`insertMap`) and
first-match lookup (`lookupMap`).

Events are emitted through the host environment, not stored in the
contract state; each operation here returns the list of events it emits
alongside its `Result` and the successor state.  The caller identity,
supplied by the host via `self.env().caller()`, is an explicit argument.
-/

abbrev AccountId := Nat

abbrev Balance := Nat

/-- The number of values of `u128`, the Rust type behind `Balance`. -/
def u128Size : Nat := 2 ^ 128

/-- First-match lookup in an association list, mirroring `Mapping::get`. -/
def lookupMap {K V : Type} [DecidableEq K] : List (K × V) → K → Option V
  | [], _ => none
  | (k1, v) :: rest, k => if k1 = k then some v else lookupMap rest k

/-- Overwrite-on-insert in an association list, mirroring `Mapping::insert`. -/
def insertMap {K V : Type} [DecidableEq K] : List (K × V) → K → V → List (K × V)
  | [], k, v => [(k, v)]
  | (k1, v1) :: rest, k, v =>
      if k1 = k then (k, v) :: rest else (k1, v1) :: insertMap rest k v

deriving instance DecidableEq for Except

/-- The `enum Error` from `src/lib.rs`. -/
inductive Error where
  | insufficientBalance
  | insufficientAllowance
deriving DecidableEq, Repr

/-- The two ink! events of the contract: `Transfer { from, to, value }`
and `Approval { owner, spender, amount }`. -/
inductive Event where
  | transferEv (fromAcc toAcc : Option AccountId) (value : Balance)
  | approvalEv (owner spender : AccountId) (amount : Balance)
deriving DecidableEq, Repr

/-- The `#[ink(storage)]` struct `MockDai`. -/
structure MockDai where
  total_supply : Balance
  balances : List (AccountId × Balance)
  allowances : List ((AccountId × AccountId) × Balance)
deriving DecidableEq, Repr

namespace MockDai

/-- Constructor `new(total_supply)`: credits the whole supply to the
caller, leaves allowances empty, emits `Transfer{from: None, to: caller}`. -/
def new (total_supply : Balance) (caller : AccountId) : MockDai × List Event :=
  ({ total_supply := total_supply
     balances := insertMap [] caller total_supply
     allowances := [] },
   [Event.transferEv none (some caller) total_supply])

/-- Message `total_supply`. -/
def totalSupplyOf (st : MockDai) : Balance :=
  st.total_supply

/-- Message `balance_of`: `self.balances.get(account).unwrap_or_default()`. -/
def balance_of (st : MockDai) (account : AccountId) : Balance :=
  (lookupMap st.balances account).getD 0

/-- Message `allowance(owner, spender)`:
`self.allowances.get((owner, spender)).unwrap_or_default()`. -/
def allowance (st : MockDai) (owner spender : AccountId) : Balance :=
  (lookupMap st.allowances (owner, spender)).getD 0

/-- Private helper `transfer_from_to`: checks `sender_balance < amount`,
then debits `fromAcc` and credits `toAcc` (the credit re-reads the balance
after the debit, which is what makes a self-transfer net to a no-op).
The source emits no event here. -/
def transfer_from_to (st : MockDai) (fromAcc toAcc : AccountId) (amount : Balance) :
    Except Error Unit × MockDai × List Event :=
  let sender_balance := st.balance_of fromAcc
  if sender_balance < amount then
    (.error .insufficientBalance, st, [])
  else
    let st1 : MockDai :=
      { st with balances := insertMap st.balances fromAcc (sender_balance - amount) }
    let to_balance := st1.balance_of toAcc
    let st2 : MockDai :=
      { st1 with balances := insertMap st1.balances toAcc ((to_balance + amount) % u128Size) }
    (.ok (), st2, [])

/-- Message `transfer(to, amount)` with the host-supplied caller made explicit:
delegates to `transfer_from_to(caller, to, amount)`. -/
def transfer (st : MockDai) (caller toAcc : AccountId) (amount : Balance) :
    Except Error Unit × MockDai × List Event :=
  st.transfer_from_to caller toAcc amount

/-- Message `approve(spender, amount)`: unconditionally overwrites
`allowances[(caller, spender)]` and emits an `Approval` event. -/
def approve (st : MockDai) (caller spender : AccountId) (amount : Balance) :
    Except Error Unit × MockDai × List Event :=
  (.ok (),
   { st with allowances := insertMap st.allowances (caller, spender) amount },
   [Event.approvalEv caller spender amount])

/-- Message `transfer_from(from, to, amount)`: checks the allowance of
`(fromAcc, caller)` first, then runs `transfer_from_to` (the `?` operator
propagates its error before the allowance is written back), and finally
stores `allowance - amount`. -/
def transfer_from (st : MockDai) (caller fromAcc toAcc : AccountId) (amount : Balance) :
    Except Error Unit × MockDai × List Event :=
  let allow := st.allowance fromAcc caller
  if allow < amount then
    (.error .insufficientAllowance, st, [])
  else
    match st.transfer_from_to fromAcc toAcc amount with
    | (.error e, st1, evs) => (.error e, st1, evs)
    | (.ok _, st1, evs) =>
        (.ok (),
         { st1 with allowances := insertMap st1.allowances (fromAcc, caller) (allow - amount) },
         evs)

end MockDai

/-- One invocation of a state-mutating contract message, with the
host-resolved caller recorded explicitly. -/
inductive Op where
  | transferOp (caller toAcc : AccountId) (amount : Balance)
  | approveOp (caller spender : AccountId) (amount : Balance)
  | transferFromOp (caller fromAcc toAcc : AccountId) (amount : Balance)
deriving DecidableEq, Repr

/-- Apply one operation, keeping the successor state whether the call
succeeded or failed (a failed call returns the unchanged state). -/
def applyOp (st : MockDai) : Op → MockDai
  | .transferOp c t a => (st.transfer c t a).2.1
  | .approveOp c s a => (st.approve c s a).2.1
  | .transferFromOp c f t a => (st.transfer_from c f t a).2.1

/-- Run a sequence of operations from a state. -/
def runOps (st : MockDai) : List Op → MockDai
  | [] => st
  | op :: ops => runOps (applyOp st op) ops

/-- A state is reachable when it arises from `new` (with a `u128`
initial supply) followed by any sequence of operations. -/
abbrev Reachable (st : MockDai) : Prop :=
  ∃ supply caller ops, supply < u128Size ∧ st = runOps (MockDai.new supply caller).1 ops

/-! ### Association-list lemmas -/

/-- The keys of an association list are pairwise distinct. -/
abbrev keysNodup {K V : Type} (m : List (K × V)) : Prop :=
  (m.map Prod.fst).Nodup

/-- Sum of all stored values of an association list. -/
def sumVals {K : Type} (m : List (K × Balance)) : Balance :=
  (m.map Prod.snd).sum

theorem lookup_insertMap_self {K V : Type} [DecidableEq K] (m : List (K × V)) (k : K) (v : V) :
    lookupMap (insertMap m k v) k = some v := by
  induction m with
  | nil => simp [insertMap, lookupMap]
  | cons p rest ih =>
      obtain ⟨k1, v1⟩ := p
      by_cases h : k1 = k <;> simp [insertMap, lookupMap, h, ih]

theorem sumVals_cons {K : Type} (p : K × Balance) (m : List (K × Balance)) :
    sumVals (p :: m) = p.2 + sumVals m := by
  simp [sumVals]

theorem lookup_insertMap_ne {K V : Type} [DecidableEq K] (m : List (K × V)) (k q : K) (v : V)
    (h : q ≠ k) : lookupMap (insertMap m k v) q = lookupMap m q := by
  induction m with
  | nil => simp [insertMap, lookupMap, Ne.symm h]
  | cons p rest ih =>
      obtain ⟨k1, v1⟩ := p
      by_cases hk : k1 = k
      · subst hk
        simp [insertMap, lookupMap, Ne.symm h]
      · by_cases hq : k1 = q
        · subst hq
          simp [insertMap, lookupMap, hk, h]
        · simp [insertMap, lookupMap, hk, hq, ih]

theorem mem_keys_insertMap {K V : Type} [DecidableEq K] (m : List (K × V)) (k q : K) (v : V) :
    q ∈ (insertMap m k v).map Prod.fst ↔ q = k ∨ q ∈ m.map Prod.fst := by
  induction m with
  | nil => simp [insertMap]
  | cons p rest ih =>
      obtain ⟨k1, v1⟩ := p
      by_cases h : k1 = k
      · subst h
        simp [insertMap]
      · simp [insertMap, h, ih]
        tauto

theorem keysNodup_insertMap {K V : Type} [DecidableEq K] (m : List (K × V)) (k : K) (v : V)
    (h : keysNodup m) : keysNodup (insertMap m k v) := by
  induction m with
  | nil => simp [keysNodup, insertMap]
  | cons p rest ih =>
      obtain ⟨k1, v1⟩ := p
      rw [keysNodup, List.map_cons, List.nodup_cons] at h
      by_cases hk : k1 = k
      · subst hk
        have he : insertMap ((k1, v1) :: rest) k1 v = (k1, v) :: rest := by
          simp [insertMap]
        rw [he, keysNodup, List.map_cons, List.nodup_cons]
        exact h
      · have he : insertMap ((k1, v1) :: rest) k v = (k1, v1) :: insertMap rest k v := by
          simp [insertMap, hk]
        rw [he, keysNodup, List.map_cons, List.nodup_cons]
        refine ⟨?_, ih h.2⟩
        rw [mem_keys_insertMap]
        rintro (rfl | hmem)
        · exact hk rfl
        · exact h.1 hmem

theorem sumVals_insertMap {K : Type} [DecidableEq K] (m : List (K × Balance)) (k : K)
    (v : Balance) :
    sumVals (insertMap m k v) + (lookupMap m k).getD 0 = sumVals m + v := by
  induction m with
  | nil => simp [insertMap, lookupMap, sumVals]
  | cons p rest ih =>
      obtain ⟨k1, v1⟩ := p
      by_cases h : k1 = k
      · subst h
        have he : insertMap ((k1, v1) :: rest) k1 v = (k1, v) :: rest := by
          simp [insertMap]
        rw [he, sumVals_cons, sumVals_cons]
        simp [lookupMap]
        ring
      · have he : insertMap ((k1, v1) :: rest) k v = (k1, v1) :: insertMap rest k v := by
          simp [insertMap, h]
        rw [he, sumVals_cons, sumVals_cons]
        simp only [lookupMap, if_neg h]
        rw [Nat.add_assoc, ih, Nat.add_assoc]

theorem lookup_getD_le_sumVals {K : Type} [DecidableEq K] (m : List (K × Balance)) (k : K) :
    (lookupMap m k).getD 0 ≤ sumVals m := by
  induction m with
  | nil => simp [lookupMap, sumVals]
  | cons p rest ih =>
      obtain ⟨k1, v1⟩ := p
      rw [sumVals_cons]
      by_cases h : k1 = k
      · simp only [lookupMap, if_pos h, Option.getD_some]
        exact Nat.le_add_right v1 _
      · simp only [lookupMap, if_neg h]
        exact le_trans ih (Nat.le_add_left _ _)

theorem lookup_eq_none_of_not_mem_keys {K V : Type} [DecidableEq K] (m : List (K × V)) (k : K)
    (h : k ∉ m.map Prod.fst) : lookupMap m k = none := by
  induction m with
  | nil => rfl
  | cons p rest ih =>
      obtain ⟨k1, v1⟩ := p
      simp only [List.map_cons, List.mem_cons, not_or] at h
      have h1 : k1 ≠ k := fun hh => h.1 hh.symm
      simp [lookupMap, h1, ih h.2]

/-- Summing the defaulted lookups over any duplicate-free list of keys that
covers the support of the map recovers the sum of the stored values. -/
theorem sum_lookup_over_support {K : Type} [DecidableEq K] (m : List (K × Balance))
    (hm : keysNodup m) (accts : List K) (hnd : accts.Nodup)
    (hsup : ∀ q ∈ m.map Prod.fst, q ∈ accts) :
    (accts.map (fun a => (lookupMap m a).getD 0)).sum = sumVals m := by
  induction m generalizing accts with
  | nil =>
      rw [sumVals]
      simp only [List.map_nil, List.sum_nil]
      apply List.sum_eq_zero
      intro x hx
      simp only [List.mem_map] at hx
      obtain ⟨a, _, rfl⟩ := hx
      rfl
  | cons p rest ih =>
      obtain ⟨k, v⟩ := p
      rw [keysNodup, List.map_cons, List.nodup_cons] at hm
      have hk : k ∈ accts := hsup k (by simp)
      have hperm : accts.Perm (k :: accts.erase k) := List.perm_cons_erase hk
      rw [((hperm.map (fun a => (lookupMap ((k, v) :: rest) a).getD 0)).sum_eq)]
      rw [List.map_cons, List.sum_cons]
      have hhead : (lookupMap ((k, v) :: rest) k).getD 0 = v := by
        simp [lookupMap]
      have htail : (accts.erase k).map (fun a => (lookupMap ((k, v) :: rest) a).getD 0)
          = (accts.erase k).map (fun a => (lookupMap rest a).getD 0) := by
        apply List.map_congr_left
        intro a ha
        have hane : a ≠ k := ((hnd.mem_erase_iff).mp ha).1
        simp [lookupMap, Ne.symm hane]
      rw [hhead, htail, ih hm.2 (accts.erase k) (hnd.erase k) ?_]
      · rw [sumVals_cons]
      · intro q hq
        have hqa : q ∈ accts := hsup q (by simp [hq])
        have hqk : q ≠ k := fun h => hm.1 (h ▸ hq)
        exact (hnd.mem_erase_iff).mpr ⟨hqk, hqa⟩

/-! ### Characterizations of the operations -/

theorem balance_of_def (st : MockDai) (x : AccountId) :
    st.balance_of x = (lookupMap st.balances x).getD 0 := rfl

theorem allowance_def (st : MockDai) (o s : AccountId) :
    st.allowance o s = (lookupMap st.allowances (o, s)).getD 0 := rfl

theorem transfer_eq_transfer_from_to (st : MockDai) (caller toAcc : AccountId)
    (amount : Balance) :
    st.transfer caller toAcc amount = st.transfer_from_to caller toAcc amount := rfl

theorem transfer_from_to_err (st : MockDai) (fromAcc toAcc : AccountId) (amount : Balance)
    (h : st.balance_of fromAcc < amount) :
    st.transfer_from_to fromAcc toAcc amount = (.error .insufficientBalance, st, []) := by
  simp [MockDai.transfer_from_to, h]

theorem transfer_from_to_ok (st : MockDai) (fromAcc toAcc : AccountId) (amount : Balance)
    (h : ¬ st.balance_of fromAcc < amount) :
    st.transfer_from_to fromAcc toAcc amount =
      (.ok (),
       { st with
           balances :=
             insertMap (insertMap st.balances fromAcc
                 ((lookupMap st.balances fromAcc).getD 0 - amount))
               toAcc
               (((lookupMap (insertMap st.balances fromAcc
                     ((lookupMap st.balances fromAcc).getD 0 - amount)) toAcc).getD 0 + amount)
                 % u128Size) },
       []) := by
  have h2 : ¬ (lookupMap st.balances fromAcc).getD 0 < amount := h
  simp [MockDai.transfer_from_to, MockDai.balance_of, h2]

theorem transfer_from_err_allowance (st : MockDai) (caller fromAcc toAcc : AccountId)
    (amount : Balance) (hal : st.allowance fromAcc caller < amount) :
    st.transfer_from caller fromAcc toAcc amount = (.error .insufficientAllowance, st, []) := by
  simp [MockDai.transfer_from, hal]

theorem transfer_from_err_balance (st : MockDai) (caller fromAcc toAcc : AccountId)
    (amount : Balance) (hal : ¬ st.allowance fromAcc caller < amount)
    (hb : st.balance_of fromAcc < amount) :
    st.transfer_from caller fromAcc toAcc amount = (.error .insufficientBalance, st, []) := by
  simp [MockDai.transfer_from, hal, transfer_from_to_err st fromAcc toAcc amount hb]

theorem transfer_from_ok (st : MockDai) (caller fromAcc toAcc : AccountId) (amount : Balance)
    (hal : ¬ st.allowance fromAcc caller < amount) (hb : ¬ st.balance_of fromAcc < amount) :
    st.transfer_from caller fromAcc toAcc amount =
      (.ok (),
       { st with
           balances :=
             insertMap (insertMap st.balances fromAcc
                 ((lookupMap st.balances fromAcc).getD 0 - amount))
               toAcc
               (((lookupMap (insertMap st.balances fromAcc
                     ((lookupMap st.balances fromAcc).getD 0 - amount)) toAcc).getD 0 + amount)
                 % u128Size),
           allowances :=
             insertMap st.allowances (fromAcc, caller)
               ((lookupMap st.allowances (fromAcc, caller)).getD 0 - amount) },
       []) := by
  simp [MockDai.transfer_from, MockDai.allowance, hal,
    transfer_from_to_ok st fromAcc toAcc amount hb]
  exact Nat.not_lt.mp hal

/-! ### The conservation invariant -/

/-- The inductive invariant maintained by the contract: the balances map
has duplicate-free keys, its stored values sum to the fixed total supply,
and the supply fits in `u128`. -/
abbrev LedgerInv (st : MockDai) : Prop :=
  keysNodup st.balances ∧ sumVals st.balances = st.total_supply ∧ st.total_supply < u128Size

theorem LedgerInv_new (supply : Balance) (caller : AccountId) (h : supply < u128Size) :
    LedgerInv (MockDai.new supply caller).1 := by
  refine ⟨?_, ?_, h⟩ <;> simp [MockDai.new, keysNodup, sumVals, insertMap]

theorem arith_credit_bound (S S1 bf bt amount ts M : Nat)
    (h1 : S1 + bf = S + (bf - amount)) (_h2 : bf ≤ S) (h3 : bt ≤ S1)
    (hsum : S = ts) (hts : ts < M) (ham : amount ≤ bf) :
    bt + amount < M := by
  omega

theorem arith_sum_preserved (S S1 S2 bf bt amount : Nat)
    (h1 : S1 + bf = S + (bf - amount)) (_h2 : bf ≤ S)
    (h3 : S2 + bt = S1 + (bt + amount)) (ham : amount ≤ bf) :
    S2 = S := by
  omega

/-- The credit `to_balance + amount` performed after the debit cannot
overflow `u128` when the balances sum to a supply below `2 ^ 128`. -/
theorem credit_no_overflow (m : List (AccountId × Balance)) (ts : Balance)
    (fromAcc toAcc : AccountId) (amount : Balance)
    (hsum : sumVals m = ts) (hts : ts < u128Size)
    (ham : amount ≤ (lookupMap m fromAcc).getD 0) :
    (lookupMap (insertMap m fromAcc ((lookupMap m fromAcc).getD 0 - amount)) toAcc).getD 0
        + amount < u128Size := by
  have h1 := sumVals_insertMap m fromAcc ((lookupMap m fromAcc).getD 0 - amount)
  have h2 := lookup_getD_le_sumVals m fromAcc
  have h3 := lookup_getD_le_sumVals
    (insertMap m fromAcc ((lookupMap m fromAcc).getD 0 - amount)) toAcc
  exact arith_credit_bound _ _ _ _ _ _ _ h1 h2 h3 hsum hts ham

/-- The debit-then-credit pair of `transfer_from_to` preserves the sum of
all balances when the supply bound rules out overflow. -/
theorem sumVals_after_transfer (m : List (AccountId × Balance)) (ts : Balance)
    (fromAcc toAcc : AccountId) (amount : Balance)
    (hsum : sumVals m = ts) (hts : ts < u128Size)
    (ham : amount ≤ (lookupMap m fromAcc).getD 0) :
    sumVals (insertMap (insertMap m fromAcc ((lookupMap m fromAcc).getD 0 - amount)) toAcc
        (((lookupMap (insertMap m fromAcc ((lookupMap m fromAcc).getD 0 - amount)) toAcc).getD 0
            + amount) % u128Size))
      = sumVals m := by
  rw [Nat.mod_eq_of_lt (credit_no_overflow m ts fromAcc toAcc amount hsum hts ham)]
  have h1 := sumVals_insertMap m fromAcc ((lookupMap m fromAcc).getD 0 - amount)
  have h2 := lookup_getD_le_sumVals m fromAcc
  have h3 := sumVals_insertMap
    (insertMap m fromAcc ((lookupMap m fromAcc).getD 0 - amount)) toAcc
    ((lookupMap (insertMap m fromAcc ((lookupMap m fromAcc).getD 0 - amount)) toAcc).getD 0
      + amount)
  exact arith_sum_preserved _ _ _ _ _ _ h1 h2 h3 ham

theorem LedgerInv_transfer_from_to (st : MockDai) (fromAcc toAcc : AccountId) (amount : Balance)
    (hInv : LedgerInv st) : LedgerInv (st.transfer_from_to fromAcc toAcc amount).2.1 := by
  obtain ⟨hnd, hsum, hts⟩ := hInv
  by_cases h : st.balance_of fromAcc < amount
  · rw [transfer_from_to_err st fromAcc toAcc amount h]
    exact ⟨hnd, hsum, hts⟩
  · rw [transfer_from_to_ok st fromAcc toAcc amount h]
    refine ⟨keysNodup_insertMap _ _ _ (keysNodup_insertMap _ _ _ hnd), ?_, hts⟩
    have ham : amount ≤ (lookupMap st.balances fromAcc).getD 0 := Nat.not_lt.mp h
    have := sumVals_after_transfer st.balances st.total_supply fromAcc toAcc amount hsum hts ham
    exact this.trans hsum

theorem LedgerInv_approve (st : MockDai) (caller spender : AccountId) (amount : Balance)
    (hInv : LedgerInv st) : LedgerInv (st.approve caller spender amount).2.1 := by
  obtain ⟨hnd, hsum, hts⟩ := hInv
  exact ⟨hnd, hsum, hts⟩

theorem LedgerInv_transfer_from (st : MockDai) (caller fromAcc toAcc : AccountId) (amount : Balance)
    (hInv : LedgerInv st) : LedgerInv (st.transfer_from caller fromAcc toAcc amount).2.1 := by
  by_cases hal : st.allowance fromAcc caller < amount
  · rw [transfer_from_err_allowance st caller fromAcc toAcc amount hal]
    exact hInv
  · by_cases hb : st.balance_of fromAcc < amount
    · rw [transfer_from_err_balance st caller fromAcc toAcc amount hal hb]
      exact hInv
    · rw [transfer_from_ok st caller fromAcc toAcc amount hal hb]
      have h2 := LedgerInv_transfer_from_to st fromAcc toAcc amount hInv
      rw [transfer_from_to_ok st fromAcc toAcc amount hb] at h2
      exact h2

theorem LedgerInv_applyOp (st : MockDai) (op : Op) (hInv : LedgerInv st) : LedgerInv (applyOp st op) := by
  cases op with
  | transferOp c t a => exact LedgerInv_transfer_from_to st c t a hInv
  | approveOp c s a => exact LedgerInv_approve st c s a hInv
  | transferFromOp c f t a => exact LedgerInv_transfer_from st c f t a hInv

theorem LedgerInv_runOps (st : MockDai) (ops : List Op) (hInv : LedgerInv st) : LedgerInv (runOps st ops) := by
  induction ops generalizing st with
  | nil => exact hInv
  | cons op rest ih => exact ih _ (LedgerInv_applyOp st op hInv)

theorem LedgerInv_of_reachable (st : MockDai) (h : Reachable st) : LedgerInv st := by
  obtain ⟨supply, caller, ops, hlt, rfl⟩ := h
  exact LedgerInv_runOps _ ops (LedgerInv_new supply caller hlt)

/-! ### Claims -/

/-- Claim C1: Conservation. In every reachable ledger state (`new` with a
`u128` supply followed by any sequence of `transfer`, `approve`,
`transfer_from`, successful or failed), the sum of `balance_of` over any
duplicate-free list of accounts covering the support of the balances map
equals `total_supply`. -/
theorem conservation_reachable (st : MockDai) (h : Reachable st)
    (accts : List AccountId) (hnd : accts.Nodup)
    (hsup : ∀ p ∈ st.balances, p.1 ∈ accts) :
    (accts.map st.balance_of).sum = st.total_supply := by
  obtain ⟨hknd, hsum, hts⟩ := LedgerInv_of_reachable st h
  have hcov : ∀ q ∈ st.balances.map Prod.fst, q ∈ accts := by
    intro q hq
    obtain ⟨p, hp, rfl⟩ := List.mem_map.mp hq
    exact hsup p hp
  have hs := sum_lookup_over_support st.balances hknd accts hnd hcov
  rw [← hsum]
  exact hs

theorem conservation_reachable_witness :
    (([1, 2] : List AccountId).map
        (runOps (MockDai.new 100 1).1 [Op.transferOp 1 2 30]).balance_of).sum
      = (runOps (MockDai.new 100 1).1 [Op.transferOp 1 2 30]).total_supply :=
  conservation_reachable (runOps (MockDai.new 100 1).1 [Op.transferOp 1 2 30])
    ⟨100, 1, [Op.transferOp 1 2 30], by decide, rfl⟩ [1, 2] (by decide) (by decide)

/-- Claim C2: the code emits NO event on a successful `transfer` or
`transfer_from` (`transfer_from_to` fires nothing; only `new` and
`approve` emit), contradicting the claimed
`Transfer { from: Some(sender), to: Some(to), value: amount }` emission:
at the concrete failing input both calls succeed with an empty event
list. -/
theorem transfer_emits_no_event :
    ((MockDai.new 1000000 1).1.transfer 1 2 500).1 = .ok ()
    ∧ ((MockDai.new 1000000 1).1.transfer 1 2 500).2.2 = []
    ∧ (((MockDai.new 1000000 1).1.approve 1 2 100).2.1.transfer_from 2 1 3 40).1 = .ok ()
    ∧ (((MockDai.new 1000000 1).1.approve 1 2 100).2.1.transfer_from 2 1 3 40).2.2 = [] := by
  decide

/-- Claim C3: when the allowance of `(fromAcc, caller)` covers `amount`
but the balance of `fromAcc` does not, `transfer_from` returns the
`InsufficientBalance` error and the whole state -- the allowance entry
included -- is unchanged. -/
theorem transfer_from_balance_fail_atomic (st : MockDai) (caller fromAcc toAcc : AccountId)
    (amount : Balance) (hal : amount ≤ st.allowance fromAcc caller)
    (hb : st.balance_of fromAcc < amount) :
    st.transfer_from caller fromAcc toAcc amount = (.error .insufficientBalance, st, []) :=
  transfer_from_err_balance st caller fromAcc toAcc amount (Nat.not_lt.mpr hal) hb

theorem transfer_from_balance_fail_atomic_witness :
    MockDai.transfer_from
        { total_supply := 10, balances := [(1, 3)], allowances := [((1, 2), 5)] } 2 1 3 4
      = (.error .insufficientBalance,
         { total_supply := 10, balances := [(1, 3)], allowances := [((1, 2), 5)] }, []) :=
  transfer_from_balance_fail_atomic
    { total_supply := 10, balances := [(1, 3)], allowances := [((1, 2), 5)] } 2 1 3 4
    (by decide) (by decide)

/-- Claim C4: `transfer` fails exactly when the balance of the caller is below
`amount`; on failure it returns `InsufficientBalance` with the state (all
balances and allowances) unchanged, otherwise it succeeds. -/
theorem transfer_raises_iff_atomic (st : MockDai) (caller toAcc : AccountId)
    (amount : Balance) :
    ((st.transfer caller toAcc amount).1 = .error .insufficientBalance
        ↔ st.balance_of caller < amount)
    ∧ (st.balance_of caller < amount →
        st.transfer caller toAcc amount = (.error .insufficientBalance, st, []))
    ∧ (amount ≤ st.balance_of caller → (st.transfer caller toAcc amount).1 = .ok ()) := by
  by_cases h : st.balance_of caller < amount
  · rw [transfer_eq_transfer_from_to, transfer_from_to_err st caller toAcc amount h]
    exact ⟨by simp [h], fun _ => rfl, fun hle => absurd h (Nat.not_lt.mpr hle)⟩
  · rw [transfer_eq_transfer_from_to, transfer_from_to_ok st caller toAcc amount h]
    exact ⟨by simp [h], fun hlt => absurd hlt h, fun _ => rfl⟩

theorem transfer_raises_iff_atomic_witness :
    ((MockDai.new 100 1).1.transfer 1 2 500
        = (.error .insufficientBalance, (MockDai.new 100 1).1, []))
    ∧ ((MockDai.new 100 1).1.transfer 1 2 50).1 = .ok () :=
  ⟨(transfer_raises_iff_atomic (MockDai.new 100 1).1 1 2 500).2.1 (by decide),
   (transfer_raises_iff_atomic (MockDai.new 100 1).1 1 2 50).2.2 (by decide)⟩

/-- Claim C7: `approve` always returns Ok and absolutely overwrites the
allowance entry for `(caller, spender)`; a second approval fully replaces
the first (no accumulation). -/
theorem approve_overwrite (st : MockDai) (caller spender : AccountId) (a1 a2 : Balance) :
    (st.approve caller spender a2).1 = .ok ()
    ∧ (st.approve caller spender a2).2.1.allowance caller spender = a2
    ∧ ((st.approve caller spender a1).2.1.approve caller spender a2).2.1.allowance
        caller spender = a2 := by
  refine ⟨rfl, ?_, ?_⟩ <;>
    simp [MockDai.approve, MockDai.allowance, lookup_insertMap_self]

/-- Claim C8: when both the allowance and the balance are insufficient,
`transfer_from` reports `InsufficientAllowance` (the allowance check runs
first) and leaves the state unchanged. -/
theorem transfer_from_error_precedence (st : MockDai) (caller fromAcc toAcc : AccountId)
    (amount : Balance) (hal : st.allowance fromAcc caller < amount)
    (_hb : st.balance_of fromAcc < amount) :
    st.transfer_from caller fromAcc toAcc amount = (.error .insufficientAllowance, st, []) :=
  transfer_from_err_allowance st caller fromAcc toAcc amount hal

theorem transfer_from_error_precedence_witness :
    MockDai.transfer_from
        { total_supply := 10, balances := [(1, 3)], allowances := [((1, 2), 1)] } 2 1 3 4
      = (.error .insufficientAllowance,
         { total_supply := 10, balances := [(1, 3)], allowances := [((1, 2), 1)] }, []) :=
  transfer_from_error_precedence
    { total_supply := 10, balances := [(1, 3)], allowances := [((1, 2), 1)] } 2 1 3 4
    (by decide) (by decide)

/-- Inserting at a key the very value the defaulted lookup currently
returns leaves every defaulted lookup unchanged. -/
theorem lookup_insert_same_val {K : Type} [DecidableEq K] (m : List (K × Balance)) (k x : K) :
    (lookupMap (insertMap m k ((lookupMap m k).getD 0)) x).getD 0
      = (lookupMap m x).getD 0 := by
  by_cases h : x = k
  · subst h
    rw [lookup_insertMap_self]
    simp
  · rw [lookup_insertMap_ne _ _ _ _ h]

/-- Claim C5: a self-transfer with sufficient balance succeeds and leaves
the balance of the account unchanged: the credit re-reads the balance after
the debit, so the decrement and increment on the same key cancel. -/
theorem self_transfer_noop (st : MockDai) (a : AccountId) (amount : Balance)
    (hInv : LedgerInv st) (h : amount ≤ st.balance_of a) :
    (st.transfer a a amount).1 = .ok ()
    ∧ (st.transfer a a amount).2.1.balance_of a = st.balance_of a := by
  obtain ⟨hnd, hsum, hts⟩ := hInv
  have hnl : ¬ st.balance_of a < amount := Nat.not_lt.mpr h
  rw [transfer_eq_transfer_from_to, transfer_from_to_ok st a a amount hnl]
  refine ⟨rfl, ?_⟩
  have hbf_lt : (lookupMap st.balances a).getD 0 < u128Size :=
    lt_of_le_of_lt (hsum ▸ lookup_getD_le_sumVals st.balances a) hts
  have ham : amount ≤ (lookupMap st.balances a).getD 0 := h
  simp only [MockDai.balance_of]
  rw [lookup_insertMap_self, lookup_insertMap_self]
  simp only [Option.getD_some]
  rw [Nat.sub_add_cancel ham, Nat.mod_eq_of_lt hbf_lt]

theorem self_transfer_noop_witness :
    ((MockDai.new 100 1).1.transfer 1 1 40).1 = .ok ()
    ∧ ((MockDai.new 100 1).1.transfer 1 1 40).2.1.balance_of 1
        = (MockDai.new 100 1).1.balance_of 1 :=
  self_transfer_noop (MockDai.new 100 1).1 1 40 (by decide) (by decide)

/-- Claim C6: delegated spend exact effect. With sufficient allowance and
balance and distinct `fromAcc`/`toAcc`, `transfer_from` succeeds,
decreases `balance_of fromAcc` by exactly `amount`, increases
`balance_of toAcc` by exactly `amount`, and decreases the allowance of
`(fromAcc, caller)` by exactly `amount` (exactness stated additively, so
no value is created, destroyed, or clamped). -/
theorem transfer_from_exact (st : MockDai) (caller fromAcc toAcc : AccountId) (amount : Balance)
    (hInv : LedgerInv st) (hal : amount ≤ st.allowance fromAcc caller)
    (hb : amount ≤ st.balance_of fromAcc) (hne : fromAcc ≠ toAcc) :
    (st.transfer_from caller fromAcc toAcc amount).1 = .ok ()
    ∧ (st.transfer_from caller fromAcc toAcc amount).2.1.balance_of fromAcc + amount
        = st.balance_of fromAcc
    ∧ (st.transfer_from caller fromAcc toAcc amount).2.1.balance_of toAcc
        = st.balance_of toAcc + amount
    ∧ (st.transfer_from caller fromAcc toAcc amount).2.1.allowance fromAcc caller + amount
        = st.allowance fromAcc caller := by
  obtain ⟨hnd, hsum, hts⟩ := hInv
  have hnal : ¬ st.allowance fromAcc caller < amount := Nat.not_lt.mpr hal
  have hnb : ¬ st.balance_of fromAcc < amount := Nat.not_lt.mpr hb
  have hbf : amount ≤ (lookupMap st.balances fromAcc).getD 0 := hb
  have halv : amount ≤ (lookupMap st.allowances (fromAcc, caller)).getD 0 := hal
  have hlt : (lookupMap st.balances toAcc).getD 0 + amount < u128Size := by
    have hc := credit_no_overflow st.balances st.total_supply fromAcc toAcc amount hsum hts hbf
    rwa [lookup_insertMap_ne _ _ _ _ (Ne.symm hne)] at hc
  rw [transfer_from_ok st caller fromAcc toAcc amount hnal hnb]
  refine ⟨rfl, ?_, ?_, ?_⟩
  · simp only [MockDai.balance_of]
    rw [lookup_insertMap_ne _ _ _ _ hne, lookup_insertMap_self]
    simp only [Option.getD_some]
    exact Nat.sub_add_cancel hbf
  · simp only [MockDai.balance_of]
    rw [lookup_insertMap_self]
    simp only [Option.getD_some]
    rw [lookup_insertMap_ne _ _ _ _ (Ne.symm hne), Nat.mod_eq_of_lt hlt]
  · simp only [MockDai.allowance]
    rw [lookup_insertMap_self]
    simp only [Option.getD_some]
    exact Nat.sub_add_cancel halv

theorem transfer_from_exact_witness :
    ((((MockDai.new 1000 1).1.approve 1 2 100).2.1.transfer_from 2 1 3 40).1 = .ok ())
    ∧ (((MockDai.new 1000 1).1.approve 1 2 100).2.1.transfer_from 2 1 3 40).2.1.balance_of 1
          + 40
        = ((MockDai.new 1000 1).1.approve 1 2 100).2.1.balance_of 1
    ∧ (((MockDai.new 1000 1).1.approve 1 2 100).2.1.transfer_from 2 1 3 40).2.1.balance_of 3
        = ((MockDai.new 1000 1).1.approve 1 2 100).2.1.balance_of 3 + 40
    ∧ (((MockDai.new 1000 1).1.approve 1 2 100).2.1.transfer_from 2 1 3 40).2.1.allowance 1 2
          + 40
        = ((MockDai.new 1000 1).1.approve 1 2 100).2.1.allowance 1 2 :=
  transfer_from_exact ((MockDai.new 1000 1).1.approve 1 2 100).2.1 2 1 3 40
    (by decide) (by decide) (by decide) (by decide)

/-- Claim C9: no arithmetic wrap. Under the conservation invariant, the
two guarded subtractions (`sender_balance - amount`, `allowance - amount`)
are exact (adding `amount` back recovers the original, so no underflow
occurred), and the unguarded credit `to_balance + amount` -- computed on
the post-debit state -- stays below `2 ^ 128`, so the `u128` reduction is
the identity. -/
theorem no_arithmetic_wrap (st : MockDai) (caller fromAcc toAcc : AccountId) (amount : Balance)
    (hInv : LedgerInv st) (hal : amount ≤ st.allowance fromAcc caller)
    (hb : amount ≤ st.balance_of fromAcc) :
    (st.balance_of fromAcc - amount) + amount = st.balance_of fromAcc
    ∧ (st.allowance fromAcc caller - amount) + amount = st.allowance fromAcc caller
    ∧ MockDai.balance_of
          { st with balances := insertMap st.balances fromAcc (st.balance_of fromAcc - amount) }
          toAcc + amount < u128Size
    ∧ (MockDai.balance_of
          { st with balances := insertMap st.balances fromAcc (st.balance_of fromAcc - amount) }
          toAcc + amount) % u128Size
        = MockDai.balance_of
            { st with balances := insertMap st.balances fromAcc (st.balance_of fromAcc - amount) }
            toAcc + amount := by
  obtain ⟨hnd, hsum, hts⟩ := hInv
  have hbf : amount ≤ (lookupMap st.balances fromAcc).getD 0 := hb
  have hlt : MockDai.balance_of
      { st with balances := insertMap st.balances fromAcc (st.balance_of fromAcc - amount) }
      toAcc + amount < u128Size :=
    credit_no_overflow st.balances st.total_supply fromAcc toAcc amount hsum hts hbf
  exact ⟨Nat.sub_add_cancel hb, Nat.sub_add_cancel hal, hlt, Nat.mod_eq_of_lt hlt⟩

theorem no_arithmetic_wrap_witness :
    ((((MockDai.new 100 1).1.approve 1 2 50).2.1.balance_of 1 - 30) + 30
        = ((MockDai.new 100 1).1.approve 1 2 50).2.1.balance_of 1)
    ∧ ((((MockDai.new 100 1).1.approve 1 2 50).2.1.allowance 1 2 - 30) + 30
        = ((MockDai.new 100 1).1.approve 1 2 50).2.1.allowance 1 2)
    ∧ MockDai.balance_of
          { ((MockDai.new 100 1).1.approve 1 2 50).2.1 with
              balances := insertMap ((MockDai.new 100 1).1.approve 1 2 50).2.1.balances 1
                (((MockDai.new 100 1).1.approve 1 2 50).2.1.balance_of 1 - 30) } 2 + 30
        < u128Size
    ∧ (MockDai.balance_of
          { ((MockDai.new 100 1).1.approve 1 2 50).2.1 with
              balances := insertMap ((MockDai.new 100 1).1.approve 1 2 50).2.1.balances 1
                (((MockDai.new 100 1).1.approve 1 2 50).2.1.balance_of 1 - 30) } 2 + 30)
          % u128Size
        = MockDai.balance_of
            { ((MockDai.new 100 1).1.approve 1 2 50).2.1 with
                balances := insertMap ((MockDai.new 100 1).1.approve 1 2 50).2.1.balances 1
                  (((MockDai.new 100 1).1.approve 1 2 50).2.1.balance_of 1 - 30) } 2 + 30 :=
  no_arithmetic_wrap ((MockDai.new 100 1).1.approve 1 2 50).2.1 2 1 2 30
    (by decide) (by decide) (by decide)

/-- Claim C10: zero-amount calls always succeed -- `transfer` even with a
zero balance, `transfer_from` even with zero allowance and zero balance
(both guards are strict less-than, which `0` always passes) -- and every
observable balance and allowance is unchanged. -/
theorem zero_amount_noop (st : MockDai) (caller fromAcc toAcc : AccountId)
    (hInv : LedgerInv st) :
    (st.transfer caller toAcc 0).1 = .ok ()
    ∧ (∀ x, (st.transfer caller toAcc 0).2.1.balance_of x = st.balance_of x)
    ∧ (∀ o s, (st.transfer caller toAcc 0).2.1.allowance o s = st.allowance o s)
    ∧ (st.transfer_from caller fromAcc toAcc 0).1 = .ok ()
    ∧ (∀ x, (st.transfer_from caller fromAcc toAcc 0).2.1.balance_of x = st.balance_of x)
    ∧ (∀ o s, (st.transfer_from caller fromAcc toAcc 0).2.1.allowance o s
        = st.allowance o s) := by
  obtain ⟨hnd, hsum, hts⟩ := hInv
  have hbal : ∀ a b x : AccountId,
      (lookupMap (insertMap (insertMap st.balances a ((lookupMap st.balances a).getD 0 - 0)) b
          (((lookupMap (insertMap st.balances a ((lookupMap st.balances a).getD 0 - 0)) b).getD 0
              + 0) % u128Size)) x).getD 0
        = (lookupMap st.balances x).getD 0 := by
    intro a b x
    rw [Nat.mod_eq_of_lt
      (credit_no_overflow st.balances st.total_supply a b 0 hsum hts (Nat.zero_le _))]
    simp only [Nat.sub_zero, Nat.add_zero]
    rw [lookup_insert_same_val, lookup_insert_same_val]
  refine ⟨?_, ?_, ?_, ?_, ?_, ?_⟩
  · rw [transfer_eq_transfer_from_to, transfer_from_to_ok st caller toAcc 0 (Nat.not_lt_zero _)]
  · intro x
    rw [transfer_eq_transfer_from_to, transfer_from_to_ok st caller toAcc 0 (Nat.not_lt_zero _)]
    simp only [MockDai.balance_of]
    exact hbal caller toAcc x
  · intro o s
    rw [transfer_eq_transfer_from_to, transfer_from_to_ok st caller toAcc 0 (Nat.not_lt_zero _)]
    rfl
  · rw [transfer_from_ok st caller fromAcc toAcc 0 (Nat.not_lt_zero _) (Nat.not_lt_zero _)]
  · intro x
    rw [transfer_from_ok st caller fromAcc toAcc 0 (Nat.not_lt_zero _) (Nat.not_lt_zero _)]
    simp only [MockDai.balance_of]
    exact hbal fromAcc toAcc x
  · intro o s
    rw [transfer_from_ok st caller fromAcc toAcc 0 (Nat.not_lt_zero _) (Nat.not_lt_zero _)]
    simp only [MockDai.allowance]
    rw [Nat.sub_zero]
    exact lookup_insert_same_val st.allowances (fromAcc, caller) (o, s)

theorem zero_amount_noop_witness :
    ((MockDai.new 100 1).1.transfer 2 3 0).1 = .ok ()
    ∧ ((MockDai.new 100 1).1.transfer 2 3 0).2.1.balance_of 3
        = (MockDai.new 100 1).1.balance_of 3
    ∧ ((MockDai.new 100 1).1.transfer_from 2 1 3 0).1 = .ok ()
    ∧ ((MockDai.new 100 1).1.transfer_from 2 1 3 0).2.1.allowance 1 2
        = (MockDai.new 100 1).1.allowance 1 2 :=
  ⟨(zero_amount_noop (MockDai.new 100 1).1 2 1 3 (by decide)).1,
   (zero_amount_noop (MockDai.new 100 1).1 2 1 3 (by decide)).2.1 3,
   (zero_amount_noop (MockDai.new 100 1).1 2 1 3 (by decide)).2.2.2.1,
   (zero_amount_noop (MockDai.new 100 1).1 2 1 3 (by decide)).2.2.2.2.2 1 2⟩
